import Mathlib

/-!
Verification of the data-pipeline front end of `bin/basenji_data.py`.

The development embeds, as executable Lean definitions, the parts of the
source that the specification's claims are about:

* `Contig` / `ModelSeq` — the two namedtuples (the Python field `end` is
  renamed `stop`, since `end` is a Lean keyword);
* `contig_sequences` (window tiler), via `tileContig`/`tileGo`;
* `unmapBinRange` — the per-overlap bin-range computation inside
  `annotate_unmap`;
* `divide_contigs_pct` — the randomized percentage split, with the
  `np.random.choice` draw abstracted as a choice oracle;
* `filterContigsLen`, `sampleCount`, `downsampleContigs`,
  `downsampleCheck` — the length filter and the `random.sample`
  down-sampling step of `main`;
* `makeReadJobs`, `shardSplit`, `makeWriteJobs` — the job sharder and
  dispatcher's two job families.

Python float expressions (`stride*seq_length`, `0.2*pool_width`,
`test_pct*total_nt`, ...) are modelled as exact rationals; integer-valued
comparisons and floors of these expressions coincide with the float
versions at every input the claims touch.  Python `int()` (truncation
toward zero) is `pyInt`.  Unbounded `while` loops are embedded with an
explicit fuel that dominates the loop's iteration count whenever the
loop's advance is positive (the fuel-irrelevance lemmas below make this
precise).
-/

namespace Basenji

/-- `Contig = collections.namedtuple('Contig', ['chr', 'start', 'end'])`;
the field `end` is called `stop` here because `end` is a Lean keyword. -/
structure Contig where
  chr : String
  start : ℕ
  stop : ℕ
deriving DecidableEq

/-- `ModelSeq = collections.namedtuple('ModelSeq', ['chr', 'start', 'end'])`. -/
structure ModelSeq where
  chr : String
  start : ℕ
  stop : ℕ
deriving DecidableEq

/-- Python `int()` applied to a rational: truncation toward zero. -/
def pyInt (q : ℚ) : ℤ :=
  q.num.tdiv q.den

/-- The window-advance step `int(stride*seq_length)` used by
`contig_sequences`. -/
def strideStep (stride : ℚ) (seqLength : ℕ) : ℕ :=
  (pyInt (stride * seqLength)).toNat

/-- The `while seq_end < ctg_end` loop body of `contig_sequences`,
with fuel.  Each iteration records the window `[seqStart, seqStart+L)`
and advances `seqStart` by `step`. -/
def tileGo (chrom : String) (L step ctgEnd : ℕ) : ℕ → ℕ → List ModelSeq
  | 0, _ => []
  | fuel + 1, seqStart =>
    if seqStart + L < ctgEnd then
      ⟨chrom, seqStart, seqStart + L⟩ :: tileGo chrom L step ctgEnd fuel (seqStart + step)
    else []

/-- Windows tiled across one contig, starting at `contig.start`.  The fuel
`c.stop + 1` dominates the loop's iteration count whenever `1 ≤ step`
(see `tileGo_fuel_irrel`). -/
def tileContig (L step : ℕ) (c : Contig) : List ModelSeq :=
  tileGo c.chr L step c.stop (c.stop + 1) c.start

/-- `contig_sequences(contigs, seq_length, stride)`: break a list of
contigs into model sequences. -/
def contig_sequences (contigs : List Contig) (seqLength : ℕ) (stride : ℚ) : List ModelSeq :=
  (contigs.map (tileContig seqLength (strideStep stride seqLength))).flatten

/-- Ceiling division for `math.ceil((overlap_end - seq_start) / pool_width)`. -/
def ceilDiv (a b : ℤ) : ℤ :=
  -((-a).fdiv b)

/-- The per-overlap pooled-bin range computation of `annotate_unmap`
(source lines 346–363): clip to the window, floor/ceil to bin indices,
then drop an edge bin whose overlap is strictly below `0.2 * pool_width`.
For integer overlaps the float comparison `x < 0.2 * pool_width` agrees
with the exact rational comparison `5 * x < pool_width` embedded here. -/
def unmapBinRange (seqStart seqEnd unmapStart unmapEnd poolWidth : ℤ) : ℤ × ℤ :=
  let overlapStart := max seqStart unmapStart
  let overlapEnd := min seqEnd unmapEnd
  let binStart0 := (overlapStart - seqStart).fdiv poolWidth
  let binEnd0 := ceilDiv (overlapEnd - seqStart) poolWidth
  let firstStart := seqStart + binStart0 * poolWidth
  let firstEnd := firstStart + poolWidth
  let firstOverlap := firstEnd - overlapStart
  let binStart := if 5 * firstOverlap < poolWidth then binStart0 + 1 else binStart0
  let lastStart := seqStart + (binEnd0 - 1) * poolWidth
  let lastOverlap := overlapEnd - lastStart
  let binEnd := if 5 * lastOverlap < poolWidth then binEnd0 - 1 else binEnd0
  (binStart, binEnd)

/-- `ctg.end - ctg.start`, the contig's nucleotide count. -/
def ctgLen (c : Contig) : ℕ :=
  c.stop - c.start

/-- The length filter of `main`:
`contigs = [ctg for ctg in contigs if ctg.end - ctg.start >= options.seq_length]`. -/
def filterContigsLen (seqLength : ℤ) (contigs : List Contig) : List Contig :=
  contigs.filter (fun c => decide (seqLength ≤ (c.stop : ℤ) - (c.start : ℤ)))

/-- The requested sample size `int(options.sample_pct * len(contigs))` of
the down-sampling step of `main`. -/
def sampleCount (p : ℚ) (n : ℕ) : ℤ :=
  pyInt (p * n)

/-- The down-sampling step
`if options.sample_pct < 1.0: contigs = random.sample(contigs, int(options.sample_pct*len(contigs)))`.
The seeded `random.sample` draw is abstracted as an oracle `sample`
returning the requested number of distinct elements. -/
def downsampleContigs (sample : ℕ → List Contig → List Contig) (p : ℚ)
    (contigs : List Contig) : List Contig :=
  if p < 1 then sample (sampleCount p contigs.length).toNat contigs else contigs

/-- Success/failure behaviour of the down-sampling step on a list of `n`
contigs: `random.sample(l, k)` raises
`ValueError` unless `0 ≤ k ≤ len(l)`, and otherwise returns `k` elements;
when `sample_pct ≥ 1.0` the step is skipped entirely. -/
def downsampleCheck (p : ℚ) (n : ℕ) : Except String ℕ :=
  if p < 1 then
    if 0 ≤ sampleCount p n ∧ sampleCount p n ≤ (n : ℤ) then
      Except.ok (sampleCount p n).toNat
    else
      Except.error "ValueError: Sample larger than population or is negative"
  else Except.ok n

/-- Python tuple order on `Contig` (namedtuples compare like
`(chr, start, end)` tuples). -/
def pyContigLe (a b : Contig) : Bool :=
  if a.chr ≠ b.chr then decide (a.chr < b.chr)
  else if a.start ≠ b.start then decide (a.start < b.start)
  else decide (a.stop ≤ b.stop)

/-- Merge-sort order realizing `length_contigs.sort(reverse=True)`:
`a` may precede `b` iff `b ≤ a` in Python tuple order on
`(length, contig)`. -/
def lenContigDescLe (a b : ℕ × Contig) : Bool :=
  if a.1 ≠ b.1 then decide (b.1 < a.1) else pyContigLe b.2 a.2

/-- Running state of `divide_contigs_pct`: current nucleotide totals and
contig lists of the three splits. -/
structure TvtAcc where
  trainNt : ℕ
  validNt : ℕ
  testNt : ℕ
  trainC : List Contig
  validC : List Contig
  testC : List Contig
deriving DecidableEq

/-- `pct_abstain=0.2`. -/
def pctAbstain : ℚ :=
  1 / 5

/-- The per-contig gap computation of `divide_contigs_pct`
(source lines 421–430): remaining gap to each aim, with the train gap
floored at 1, and the test/valid gaps zeroed when the contig is larger
than `pct_abstain` times the gap.  Returned as
`(train_gap, valid_gap, test_gap)`. -/
def tvtGaps (testAim validAim trainAim : ℚ) (acc : TvtAcc) (len : ℕ) : ℚ × ℚ × ℚ :=
  let testGap0 := max 0 (testAim - acc.testNt)
  let validGap0 := max 0 (validAim - acc.validNt)
  let trainGap := max 1 (trainAim - acc.trainNt)
  let testGap := if (len : ℚ) > pctAbstain * testGap0 then 0 else testGap0
  let validGap := if (len : ℚ) > pctAbstain * validGap0 then 0 else validGap0
  (trainGap, validGap, testGap)

/-- The contig loop of `divide_contigs_pct`.  The draw
`np.random.choice(range(3), 1, p=[train_pct_gap, valid_pct_gap, test_pct_gap])`
is abstracted as an oracle `choice` receiving the iteration index and the
probability triple; `0` assigns to train, `1` to valid, `2` to test,
appending the contig and adding its length to the split's total. -/
def dividePctGo (choice : ℕ → ℚ × ℚ × ℚ → Fin 3) (testAim validAim trainAim : ℚ) :
    List (ℕ × Contig) → ℕ → TvtAcc → TvtAcc
  | [], _, acc => acc
  | (len, c) :: rest, i, acc =>
    let g := tvtGaps testAim validAim trainAim acc len
    let gapSum := g.1 + g.2.1 + g.2.2
    let ri := choice i (g.1 / gapSum, g.2.1 / gapSum, g.2.2 / gapSum)
    let acc' :=
      if ri = 0 then
        { acc with trainNt := acc.trainNt + len, trainC := acc.trainC ++ [c] }
      else if ri = 1 then
        { acc with validNt := acc.validNt + len, validC := acc.validC ++ [c] }
      else
        { acc with testNt := acc.testNt + len, testC := acc.testC ++ [c] }
    dividePctGo choice testAim validAim trainAim rest (i + 1) acc'

/-- `divide_contigs_pct(contigs, test_pct, valid_pct)`: sort `(length,
contig)` pairs descending, compute the aim totals, then run the
greedy-random assignment loop. -/
def divide_contigs_pct (choice : ℕ → ℚ × ℚ × ℚ → Fin 3) (contigs : List Contig)
    (testPct validPct : ℚ) : TvtAcc :=
  let lengthContigs := (contigs.map (fun c => (ctgLen c, c))).mergeSort lenContigDescLe
  let totalNt : ℕ := (lengthContigs.map (fun p => p.1)).sum
  let testAim : ℚ := testPct * totalNt
  let validAim : ℚ := validPct * totalNt
  let trainAim : ℚ := (totalNt : ℚ) - validAim - testAim
  dividePctGo choice testAim validAim trainAim lengthContigs 0 ⟨0, 0, 0, [], [], []⟩

/-- Split labels of the merged window list. -/
inductive TvtLabel
  | train
  | valid
  | test
deriving DecidableEq, BEq

/-- `[i for i in range(len(mseqs_labels)) if mseqs_labels[i] == tvt_set]`. -/
def tvtIndexes (labels : List TvtLabel) (s : TvtLabel) : List ℕ :=
  (labels.enum.filter (fun p => p.2 == s)).map (fun p => p.1)

/-- The TFRecord shard loop of `main` (source lines 260–292), with fuel:
starting from `tfrStart = tvt_set_start`, while `tfr_start <= tvt_set_end`
emit `(tfr_start, min(tfr_start + seqs_per_tfr, tvt_set_end))` and advance
by `seqs_per_tfr`. -/
def shardGo (seqsPerTfr tvtEnd : ℕ) : ℕ → ℕ → List (ℕ × ℕ)
  | 0, _ => []
  | fuel + 1, tfrStart =>
    if tfrStart ≤ tvtEnd then
      (tfrStart, min (tfrStart + seqsPerTfr) tvtEnd) ::
        shardGo seqsPerTfr tvtEnd fuel (tfrStart + seqsPerTfr)
    else []

/-- Shard generation for one split: `tvt_set_start = tvt_set_indexes[0]`
(an uncaught `IndexError` when the split is empty),
`tvt_set_end = tvt_set_indexes[-1]`, then the shard loop.  The fuel
`tvtEnd + 1` dominates the loop's iteration count whenever
`1 ≤ seqsPerTfr` (see `shardGo_fuel_irrel`). -/
def shardSplit (indexes : List ℕ) (seqsPerTfr : ℕ) : Except String (List (ℕ × ℕ)) :=
  match indexes with
  | [] => Except.error "IndexError: list index out of range"
  | i0 :: rest =>
    let tvtEnd := (i0 :: rest).getLast (List.cons_ne_nil i0 rest)
    Except.ok (shardGo seqsPerTfr tvtEnd (tvtEnd + 1) i0)

/-- The shard-writing job family (`write_jobs`): one `(split, start, end)`
job per shard, splits processed in train/valid/test order. -/
def makeWriteJobs (labels : List TvtLabel) (seqsPerTfr : ℕ) :
    Except String (List (TvtLabel × ℕ × ℕ)) := do
  let t ← shardSplit (tvtIndexes labels TvtLabel.train) seqsPerTfr
  let v ← shardSplit (tvtIndexes labels TvtLabel.valid) seqsPerTfr
  let te ← shardSplit (tvtIndexes labels TvtLabel.test) seqsPerTfr
  pure ((t.map (fun p => (TvtLabel.train, p))) ++ (v.map (fun p => (TvtLabel.valid, p))) ++
    (te.map (fun p => (TvtLabel.test, p))))

/-- Shard-writing job generation as a function of the filesystem: the
source's TFRecord loop (lines 253–297) performs no `os.path.isfile`
check, so the filesystem argument is unused and every shard job is
regenerated on a re-run. -/
def makeWriteJobsFS (_existsFile : String → Bool) (labels : List TvtLabel)
    (seqsPerTfr : ℕ) : Except String (List (TvtLabel × ℕ × ℕ)) :=
  makeWriteJobs labels seqsPerTfr

/-- `seqs_cov_file = '%s/%d.h5' % (seqs_cov_dir, ti)`. -/
def covOutputPath (seqsCovDir : String) (ti : ℕ) : String :=
  seqsCovDir ++ "/" ++ toString ti ++ ".h5"

/-- The coverage-extraction job family (`read_jobs`), each job recorded by
its target index: target `ti` is skipped exactly when its output file
`seqs_cov_dir/ti.h5` already exists (source lines 216–239). -/
def makeReadJobs (existsFile : String → Bool) (seqsCovDir : String) (numTargets : ℕ) :
    List ℕ :=
  (List.range numTargets).filter (fun ti => !(existsFile (covOutputPath seqsCovDir ti)))

/-- Modelled from the spec: `basenji_data_write.py`, the consumer of the
`-s`/`-e` arguments of a shard-writing job, is not under `src/`; per the
spec's data model a Shard is "a contiguous half-open slice of a split's
window list", so shard `(s, e)` covers window index `i` iff `s ≤ i < e`. -/
def shardCovers (shard : ℕ × ℕ) (i : ℕ) : Prop :=
  shard.1 ≤ i ∧ i < shard.2

instance (shard : ℕ × ℕ) (i : ℕ) : Decidable (shardCovers shard i) := by
  unfold shardCovers
  infer_instance

/-! ## Helper lemmas -/

theorem pyInt_eq_floor (q : ℚ) (h : 0 ≤ q) : pyInt q = ⌊q⌋ := by
  unfold pyInt
  rw [Rat.floor_def]
  exact Int.tdiv_eq_ediv (Rat.num_nonneg.mpr h) (by positivity)

theorem pyInt_natCast (n : ℕ) : pyInt (n : ℚ) = n := by
  unfold pyInt
  simp [Rat.num_natCast, Rat.den_natCast]

theorem strideStep_one (L : ℕ) : strideStep 1 L = L := by
  unfold strideStep
  rw [one_mul, pyInt_natCast]
  simp

/-- `pyInt` of a rational `≤ -1` is negative (used to show where a
negative down-sample fraction actually fails). -/
theorem pyInt_neg_of_le_neg_one (q : ℚ) (h : q ≤ -1) : pyInt q < 0 := by
  have h0 : pyInt (-q) = ⌊-q⌋ := pyInt_eq_floor (-q) (by linarith)
  have h1 : (1 : ℤ) ≤ ⌊-q⌋ := by
    rw [Int.le_floor]
    push_cast
    linarith
  have h2 : pyInt q = -pyInt (-q) := by
    unfold pyInt
    rw [Rat.neg_num, Rat.neg_den, Int.neg_tdiv]
    simp
  omega

/-- The tiling loop's output does not depend on the fuel once the fuel
dominates `ctgEnd - seqStart`, provided the advance is positive; this
justifies the fuel `c.stop + 1` in `tileContig`. -/
theorem tileGo_fuel_irrel (chrom : String) (L step ctgEnd : ℕ) (hstep : 1 ≤ step) :
    ∀ (f₁ f₂ s : ℕ), ctgEnd ≤ s + f₁ → ctgEnd ≤ s + f₂ →
      tileGo chrom L step ctgEnd f₁ s = tileGo chrom L step ctgEnd f₂ s := by
  intro f₁
  induction f₁ with
  | zero =>
    intro f₂ s h₁ h₂
    cases f₂ with
    | zero => rfl
    | succ m =>
      simp only [tileGo]
      rw [if_neg (by omega)]
  | succ n ih =>
    intro f₂ s h₁ h₂
    cases f₂ with
    | zero =>
      simp only [tileGo]
      rw [if_neg (by omega)]
    | succ m =>
      simp only [tileGo]
      by_cases hg : s + L < ctgEnd
      · rw [if_pos hg, if_pos hg, ih m (s + step) (by omega) (by omega)]
      · rw [if_neg hg, if_neg hg]

/-- Every window the tiling loop emits has length `L` and ends strictly
before the contig end. -/
theorem tileGo_mem (chrom : String) (L step ctgEnd : ℕ) :
    ∀ (fuel seqStart : ℕ), ∀ w ∈ tileGo chrom L step ctgEnd fuel seqStart,
      w.stop - w.start = L ∧ w.stop < ctgEnd := by
  intro fuel
  induction fuel with
  | zero =>
    intro s w hw
    simp [tileGo] at hw
  | succ n ih =>
    intro s w hw
    simp only [tileGo] at hw
    by_cases hg : s + L < ctgEnd
    · rw [if_pos hg] at hw
      rcases List.mem_cons.mp hw with h | h
      · subst h
        exact ⟨by show s + L - s = L; omega, hg⟩
      · exact ih (s + step) w h
    · rw [if_neg hg] at hw
      simp at hw

/-- The head of a nonempty tiling-loop output starts at the loop's current
position. -/
theorem tileGo_head_start (chrom : String) (L step ctgEnd : ℕ) :
    ∀ (fuel seqStart : ℕ), ∀ w ∈ (tileGo chrom L step ctgEnd fuel seqStart).head?,
      w.start = seqStart := by
  intro fuel s w hw
  cases fuel with
  | zero => simp [tileGo] at hw
  | succ n =>
    simp only [tileGo] at hw
    by_cases hg : s + L < ctgEnd
    · rw [if_pos hg] at hw
      simp at hw
      rw [← hw]
    · rw [if_neg hg] at hw
      simp at hw

/-- The shard loop's output does not depend on the fuel once the fuel
exceeds `tvtEnd - tfrStart`, provided the advance is positive; this
justifies the fuel `tvtEnd + 1` in `shardSplit`. -/
theorem shardGo_fuel_irrel (r tvtEnd : ℕ) (hr : 1 ≤ r) :
    ∀ (f₁ f₂ s : ℕ), tvtEnd < s + f₁ → tvtEnd < s + f₂ →
      shardGo r tvtEnd f₁ s = shardGo r tvtEnd f₂ s := by
  intro f₁
  induction f₁ with
  | zero =>
    intro f₂ s h₁ h₂
    cases f₂ with
    | zero => rfl
    | succ m =>
      simp only [shardGo]
      rw [if_neg (by omega)]
  | succ n ih =>
    intro f₂ s h₁ h₂
    cases f₂ with
    | zero =>
      simp only [shardGo]
      rw [if_neg (by omega)]
    | succ m =>
      simp only [shardGo]
      by_cases hg : s ≤ tvtEnd
      · rw [if_pos hg, if_pos hg, ih m (s + r) (by omega) (by omega)]
      · rw [if_neg hg, if_neg hg]

/-- Invariant of the `divide_contigs_pct` loop: whatever the random draws,
each processed pair lands in exactly one split list (as multisets, the
three lists together extend the accumulator by exactly the processed
contigs), and the three totals absorb exactly the processed lengths. -/
theorem dividePctGo_spec (choice : ℕ → ℚ × ℚ × ℚ → Fin 3) (tA vA trA : ℚ) :
    ∀ (pairs : List (ℕ × Contig)) (i : ℕ) (acc : TvtAcc),
      ((((dividePctGo choice tA vA trA pairs i acc).trainC ++
          (dividePctGo choice tA vA trA pairs i acc).validC ++
          (dividePctGo choice tA vA trA pairs i acc).testC : List Contig) : Multiset Contig)
        = ((acc.trainC ++ acc.validC ++ acc.testC : List Contig) : Multiset Contig)
          + ((pairs.map (fun p => p.2) : List Contig) : Multiset Contig))
      ∧ (dividePctGo choice tA vA trA pairs i acc).trainNt +
          (dividePctGo choice tA vA trA pairs i acc).validNt +
          (dividePctGo choice tA vA trA pairs i acc).testNt
        = acc.trainNt + acc.validNt + acc.testNt + (pairs.map (fun p => p.1)).sum := by
  intro pairs
  induction pairs with
  | nil =>
    intro i acc
    simp [dividePctGo]
  | cons p rest ih =>
    intro i acc
    obtain ⟨len, c⟩ := p
    simp only [dividePctGo]
    split_ifs with h0 h1
    · obtain ⟨ihp, ihs⟩ := ih (i + 1)
        { acc with trainNt := acc.trainNt + len, trainC := acc.trainC ++ [c] }
      refine ⟨?_, ?_⟩
      · rw [ihp]
        simp only [List.map_cons, ← Multiset.coe_add, ← Multiset.cons_coe, Multiset.coe_nil,
          ← Multiset.singleton_add]
        abel
      · rw [ihs]
        simp only [List.map_cons, List.sum_cons]
        omega
    · obtain ⟨ihp, ihs⟩ := ih (i + 1)
        { acc with validNt := acc.validNt + len, validC := acc.validC ++ [c] }
      refine ⟨?_, ?_⟩
      · rw [ihp]
        simp only [List.map_cons, ← Multiset.coe_add, ← Multiset.cons_coe, Multiset.coe_nil,
          ← Multiset.singleton_add]
        abel
      · rw [ihs]
        simp only [List.map_cons, List.sum_cons]
        omega
    · obtain ⟨ihp, ihs⟩ := ih (i + 1)
        { acc with testNt := acc.testNt + len, testC := acc.testC ++ [c] }
      refine ⟨?_, ?_⟩
      · rw [ihp]
        simp only [List.map_cons, ← Multiset.coe_add, ← Multiset.cons_coe, Multiset.coe_nil,
          ← Multiset.singleton_add]
        abel
      · rw [ihs]
        simp only [List.map_cons, List.sum_cons]
        omega

/-- Successive windows emitted by the tiling loop advance by `step`. -/
theorem tileGo_chain (chrom : String) (L step ctgEnd : ℕ) :
    ∀ (fuel seqStart : ℕ),
      List.Chain' (fun a b => b.start = a.start + step)
        (tileGo chrom L step ctgEnd fuel seqStart) := by
  intro fuel
  induction fuel with
  | zero =>
    intro s
    simp [tileGo]
  | succ n ih =>
    intro s
    simp only [tileGo]
    by_cases hg : s + L < ctgEnd
    · rw [if_pos hg]
      rw [List.chain'_cons']
      refine ⟨fun b hb => ?_, ih (s + step)⟩
      rw [tileGo_head_start chrom L step ctgEnd n (s + step) b hb]
    · rw [if_neg hg]
      simp

theorem exceptBindError {ε α β : Type} (e : ε) (f : α → Except ε β) :
    ((Except.error e : Except ε α) >>= f) = Except.error e :=
  rfl

theorem exceptBindOk {ε α β : Type} (a : α) (f : α → Except ε β) :
    ((Except.ok a : Except ε α) >>= f) = f a :=
  rfl

/-! ## Claim theorems -/

/-- C8: in percentage mode, `divide_contigs_pct` assigns every input
contig to exactly one of the train, valid and test output lists — their
concatenation is a permutation of the input — and the three nucleotide
running totals sum exactly to the total nucleotides of all input contigs,
whatever the random draws. -/
theorem c8_divide_pct_partition (choice : ℕ → ℚ × ℚ × ℚ → Fin 3) (contigs : List Contig)
    (testPct validPct : ℚ) :
    List.Perm
      ((divide_contigs_pct choice contigs testPct validPct).trainC ++
        (divide_contigs_pct choice contigs testPct validPct).validC ++
        (divide_contigs_pct choice contigs testPct validPct).testC) contigs
    ∧ (divide_contigs_pct choice contigs testPct validPct).trainNt +
        (divide_contigs_pct choice contigs testPct validPct).validNt +
        (divide_contigs_pct choice contigs testPct validPct).testNt
      = (contigs.map ctgLen).sum := by
  simp only [divide_contigs_pct]
  set pairs := (contigs.map (fun c => (ctgLen c, c))).mergeSort lenContigDescLe with hpairs
  set total := (pairs.map (fun p => p.1)).sum with htotal
  obtain ⟨hp, hs⟩ := dividePctGo_spec choice (testPct * (total : ℚ)) (validPct * (total : ℚ))
    ((total : ℚ) - validPct * (total : ℚ) - testPct * (total : ℚ)) pairs 0 ⟨0, 0, 0, [], [], []⟩
  have hperm : List.Perm pairs (contigs.map (fun c => (ctgLen c, c))) :=
    List.mergeSort_perm (contigs.map (fun c => (ctgLen c, c))) lenContigDescLe
  have hmap2 : List.Perm (pairs.map (fun p => p.2)) contigs := by
    have h3 := hperm.map (fun p : ℕ × Contig => p.2)
    simpa [List.map_map, Function.comp_def] using h3
  constructor
  · rw [← Multiset.coe_eq_coe, hp]
    simpa using Multiset.coe_eq_coe.mpr hmap2
  · rw [hs]
    have h4 := hperm.map (fun p : ℕ × Contig => p.1)
    have h5 : (pairs.map (fun p => p.1)).sum = (contigs.map ctgLen).sum := by
      rw [h4.sum_eq]
      simp [List.map_map, Function.comp_def]
    simpa using h5

/-- C9: in `divide_contigs_pct`, the normalization denominator — the sum
of the train, valid and test gaps produced by `tvtGaps` for any current
totals and contig length — is at least 1, because the train gap is
floored at 1 and the abstention rule zeroes only the test and valid gaps;
hence the probability draw never divides by zero. -/
theorem c9_gap_sum_ge_one (testAim validAim trainAim : ℚ) (acc : TvtAcc) (len : ℕ) :
    1 ≤ (tvtGaps testAim validAim trainAim acc len).1 +
        (tvtGaps testAim validAim trainAim acc len).2.1 +
        (tvtGaps testAim validAim trainAim acc len).2.2 := by
  unfold tvtGaps
  have h1 : (1 : ℚ) ≤ max 1 (trainAim - acc.trainNt) := le_max_left 1 _
  have h2 : (0 : ℚ) ≤ max 0 (validAim - acc.validNt) := le_max_left 0 _
  have h3 : (0 : ℚ) ≤ max 0 (testAim - acc.testNt) := le_max_left 0 _
  simp only
  split_ifs <;> simp <;> linarith

/-- C10: if any of the three splits contains zero windows when
shard-writing jobs are generated, job generation fails with the uncaught
`IndexError` from `tvt_set_indexes[0]` rather than emitting zero shards
for that split; every split being non-empty is an unstated precondition. -/
theorem c10_empty_split_index_error (labels : List TvtLabel) (seqsPerTfr : ℕ)
    (h : tvtIndexes labels TvtLabel.train = [] ∨ tvtIndexes labels TvtLabel.valid = [] ∨
      tvtIndexes labels TvtLabel.test = []) :
    ∀ jobs, makeWriteJobs labels seqsPerTfr ≠ Except.ok jobs := by
  intro jobs hok
  unfold makeWriteJobs at hok
  rcases h with h | h | h
  · rw [h] at hok
    simp [shardSplit, exceptBindError] at hok
  · cases h1 : shardSplit (tvtIndexes labels TvtLabel.train) seqsPerTfr with
    | error e =>
      rw [h1] at hok
      simp [exceptBindError] at hok
    | ok t =>
      rw [h1, h] at hok
      simp [shardSplit, exceptBindOk, exceptBindError] at hok
  · cases h1 : shardSplit (tvtIndexes labels TvtLabel.train) seqsPerTfr with
    | error e =>
      rw [h1] at hok
      simp [exceptBindError] at hok
    | ok t =>
      rw [h1] at hok
      cases h2 : shardSplit (tvtIndexes labels TvtLabel.valid) seqsPerTfr with
      | error e =>
        rw [h2] at hok
        simp [exceptBindOk, exceptBindError] at hok
      | ok v =>
        rw [h2, h] at hok
        simp [shardSplit, exceptBindOk, exceptBindError] at hok

/-- C10 witness: with a single train window the valid split is empty and
shard-job generation fails. -/
theorem c10_witness :
    makeWriteJobs [TvtLabel.train] 1 ≠ Except.ok [] :=
  c10_empty_split_index_error [TvtLabel.train] 1 (Or.inr (Or.inl (by decide))) []

/-- C2: concrete evaluation at the failing input.  A split of 130 windows
(indexes 0–129) with `seqs_per_tfr = 50` yields the shard boundary pairs
`(0,50), (50,100), (100,129)`: under the half-open shard semantics the
sizes are 50, 50, 29 — not 50, 50, 30 — and window 129 is covered by no
shard, contradicting the claimed exact cover. -/
theorem c2_final_shard_short :
    shardSplit (List.range 130) 50 = Except.ok [(0, 50), (50, 100), (100, 129)]
    ∧ ([(0, 50), (50, 100), (100, 129)].map (fun p => p.2 - p.1)) = [50, 50, 29]
    ∧ ∀ p ∈ [(0, 50), (50, 100), (100, 129)], ¬ shardCovers p 129 := by
  refine ⟨by rfl, by decide, by decide⟩

/-- C1 counterexample: a re-run in which every output file already exists
(`existsFile` constantly true) submits zero coverage-extraction jobs but
still submits all three shard-writing jobs — the claimed skip does not
hold for the shard-writing family. -/
theorem c1_counterexample :
    makeReadJobs (fun _ => true) "seqs_cov" 2 = []
    ∧ makeWriteJobsFS (fun _ => true) [TvtLabel.train, TvtLabel.valid, TvtLabel.test] 1
        = Except.ok [(TvtLabel.train, 0, 0), (TvtLabel.valid, 1, 1), (TvtLabel.test, 2, 2)]
    ∧ ([(TvtLabel.train, 0, 0), (TvtLabel.valid, 1, 1), (TvtLabel.test, 2, 2)]
        : List (TvtLabel × ℕ × ℕ)).length ≠ 0 := by
  refine ⟨by decide, by rfl, by decide⟩

/-- C1 amended: coverage-extraction jobs whose `.h5` output exists are all
skipped (a full re-run submits zero coverage jobs), while shard-writing
job generation is independent of the filesystem — existing shard outputs
are resubmitted unconditionally. -/
theorem c1_amended_resubmission (existsFile : String → Bool) (dir : String) (n : ℕ)
    (hall : ∀ ti, ti < n → existsFile (covOutputPath dir ti) = true) :
    makeReadJobs existsFile dir n = []
    ∧ ∀ (fs₁ fs₂ : String → Bool) (labels : List TvtLabel) (r : ℕ),
        makeWriteJobsFS fs₁ labels r = makeWriteJobsFS fs₂ labels r := by
  constructor
  · unfold makeReadJobs
    rw [List.filter_eq_nil_iff]
    intro ti hti
    rw [List.mem_range] at hti
    simp [hall ti hti]
  · intro fs₁ fs₂ labels r
    rfl

/-- C1 witness: instantiation of the amended statement at a filesystem in
which every output exists. -/
theorem c1_witness :
    makeReadJobs (fun _ => true) "seqs_cov" 3 = []
    ∧ ∀ (fs₁ fs₂ : String → Bool) (labels : List TvtLabel) (r : ℕ),
        makeWriteJobsFS fs₁ labels r = makeWriteJobsFS fs₂ labels r :=
  c1_amended_resubmission (fun _ => true) "seqs_cov" 3 (fun _ _ => rfl)

/-- C3 counterexample: with `seq_length = 100000` and stride multiplier 1,
the tiler emits 0 windows — not 1 — for a contig of length 100,000,
because a window flush with the contig end fails the strict
`seq_end < ctg_end` test. -/
theorem c3_counterexample :
    (contig_sequences [⟨"chr1", 0, 100000⟩] 100000 1).length = 0 ∧ (0 : ℕ) ≠ 1 := by
  refine ⟨?_, by decide⟩
  simp only [contig_sequences, strideStep_one]
  decide

/-- C3 amended: with `seq_length = 100000` and stride multiplier 1, the
tiler emits exactly 0 windows for a contig of length 100,000 and exactly
2 windows for a contig of length 300,000 (the window flush with each
contig's end is excluded by the strict boundary test). -/
theorem c3_amended :
    contig_sequences [⟨"chr1", 0, 100000⟩] 100000 1 = []
    ∧ contig_sequences [⟨"chr2", 0, 300000⟩] 100000 1
        = [⟨"chr2", 0, 100000⟩, ⟨"chr2", 100000, 200000⟩] := by
  constructor <;> (simp only [contig_sequences, strideStep_one]; decide)

/-- C7: every window the tiler emits for a contig has length exactly
`seq_length` and ends strictly before the contig end (a window flush with
the contig end is excluded), successive window starts advance by
`int(stride*seq_length)`, and for a non-negative stride that step is
`⌊stride * seq_length⌋`. -/
theorem c7_tiled_window_bounds (contigs : List Contig) (L : ℕ) (stride : ℚ)
    (hstride : 0 ≤ stride) (hstep : 1 ≤ strideStep stride L) :
    ((strideStep stride L : ℤ) = ⌊stride * (L : ℚ)⌋)
    ∧ ∀ c ∈ contigs,
        (∀ w ∈ tileContig L (strideStep stride L) c, w.stop - w.start = L ∧ w.stop < c.stop)
        ∧ List.Chain' (fun a b => b.start = a.start + strideStep stride L)
            (tileContig L (strideStep stride L) c) := by
  constructor
  · unfold strideStep
    rw [pyInt_eq_floor _ (mul_nonneg hstride (Nat.cast_nonneg L))]
    rw [Int.toNat_of_nonneg (Int.floor_nonneg.mpr (mul_nonneg hstride (Nat.cast_nonneg L)))]
  · intro c hc
    constructor
    · intro w hw
      exact tileGo_mem c.chr L (strideStep stride L) c.stop (c.stop + 1) c.start w hw
    · exact tileGo_chain c.chr L (strideStep stride L) c.stop (c.stop + 1) c.start

/-- C7 witness: instantiation at a 350-long contig, `seq_length = 100`,
stride multiplier 1. -/
theorem c7_witness :
    ((strideStep 1 100 : ℤ) = ⌊(1 : ℚ) * ((100 : ℕ) : ℚ)⌋)
    ∧ ∀ c ∈ [(⟨"chr1", 0, 350⟩ : Contig)],
        (∀ w ∈ tileContig 100 (strideStep 1 100) c, w.stop - w.start = 100 ∧ w.stop < c.stop)
        ∧ List.Chain' (fun a b => b.start = a.start + strideStep 1 100)
            (tileContig 100 (strideStep 1 100) c) :=
  c7_tiled_window_bounds [⟨"chr1", 0, 350⟩] 100 1 (by norm_num)
    (by rw [strideStep_one]; norm_num)

/-- C4 counterexample: window `[0,100)` with pool width 10 and unmappable
region `[8,25)`.  The overlap intrudes `10 - 8 = 2` positions into the
first affected bin (bin 0), which is exactly 20% of the bin width, yet
`unmapBinRange` returns bin range `(0, 3)`: bin 0 is marked, not excluded
as the claim asserts for an exactly-20% overlap. -/
theorem c4_counterexample :
    unmapBinRange 0 100 8 25 10 = (0, 3)
    ∧ (5 * (10 - 8) : ℤ) = 10
    ∧ (unmapBinRange 0 100 8 25 10).1 ≠ 0 + 1 := by
  refine ⟨by decide, by decide, by decide⟩

/-- C4 amended: for an overlap spanning at least two pooled bins, the code
drops the first (resp. last) affected bin exactly when its overlap is
strictly below 20% of the bin width: a less-than-20% edge overlap excludes
the bin, an exactly-20% or greater edge overlap keeps it (the claim's
exclusion at exactly 20% is wrong: the comparison is strict). -/
theorem c4_amended (seqStart seqEnd unmapStart unmapEnd pw os oe s0 e0 fo lo : ℤ)
    (hpw : 0 < pw)
    (hos : os = max seqStart unmapStart)
    (hoe : oe = min seqEnd unmapEnd)
    (hs0 : s0 = (os - seqStart).fdiv pw)
    (he0 : e0 = ceilDiv (oe - seqStart) pw)
    (hspan : s0 + 1 < e0)
    (hfo : fo = seqStart + s0 * pw + pw - os)
    (hlo : lo = oe - (seqStart + (e0 - 1) * pw)) :
    ((5 * fo < pw → (unmapBinRange seqStart seqEnd unmapStart unmapEnd pw).1 = s0 + 1)
      ∧ (pw ≤ 5 * fo → (unmapBinRange seqStart seqEnd unmapStart unmapEnd pw).1 = s0))
    ∧ ((5 * lo < pw → (unmapBinRange seqStart seqEnd unmapStart unmapEnd pw).2 = e0 - 1)
      ∧ (pw ≤ 5 * lo → (unmapBinRange seqStart seqEnd unmapStart unmapEnd pw).2 = e0)) := by
  subst hos hoe hs0 he0 hfo hlo
  refine ⟨⟨fun h => ?_, fun h => ?_⟩, ⟨fun h => ?_, fun h => ?_⟩⟩
  · simp only [unmapBinRange]
    rw [if_pos h]
  · simp only [unmapBinRange]
    rw [if_neg (not_lt.mpr h)]
  · simp only [unmapBinRange]
    rw [if_pos h]
  · simp only [unmapBinRange]
    rw [if_neg (not_lt.mpr h)]

/-- C4 witness: instantiation at window `[0,100)`, pool width 10,
unmappable region `[8,25)` (first-bin overlap exactly 20%, last-bin
overlap 50%). -/
theorem c4_witness :
    ((5 * 2 < (10 : ℤ) → (unmapBinRange 0 100 8 25 10).1 = 0 + 1)
      ∧ ((10 : ℤ) ≤ 5 * 2 → (unmapBinRange 0 100 8 25 10).1 = 0))
    ∧ ((5 * 5 < (10 : ℤ) → (unmapBinRange 0 100 8 25 10).2 = 3 - 1)
      ∧ ((10 : ℤ) ≤ 5 * 5 → (unmapBinRange 0 100 8 25 10).2 = 3)) :=
  c4_amended 0 100 8 25 10 8 25 0 3 2 5 (by norm_num) (by decide) (by decide)
    (by decide) (by decide) (by decide) (by decide) (by decide)

/-- C5 counterexample: with down-sample fraction 1/2 over 3 surviving
contigs the code requests `int(0.5 * 3) = 1` contig, while the claim's
`round(0.5 * 3) = 2`. -/
theorem c5_counterexample :
    sampleCount (1 / 2) 3 = 1
    ∧ round ((1 / 2 : ℚ) * ((3 : ℕ) : ℚ)) = 2
    ∧ (1 : ℤ) ≠ 2 := by
  refine ⟨?_, ?_, by decide⟩
  · unfold sampleCount
    rw [pyInt_eq_floor _ (by positivity)]
    norm_num
  · rw [round_eq]
    norm_num

/-- C5 amended: with a down-sample fraction `0 ≤ p < 1`, the code selects
exactly `⌊p * N⌋` contigs — `int()` truncation, not rounding — without
replacement from the `N` contigs surviving the length filter (the
`random.sample` draw is abstracted as an oracle returning the requested
number of elements). -/
theorem c5_amended (sample : ℕ → List Contig → List Contig)
    (hsample : ∀ k l, k ≤ l.length → (sample k l).length = k)
    (p : ℚ) (h0 : 0 ≤ p) (h1 : p < 1) (contigs : List Contig) :
    sampleCount p contigs.length = ⌊p * (contigs.length : ℚ)⌋
    ∧ (downsampleContigs sample p contigs).length = (⌊p * (contigs.length : ℚ)⌋).toNat := by
  have hfl : sampleCount p contigs.length = ⌊p * (contigs.length : ℚ)⌋ := by
    unfold sampleCount
    exact pyInt_eq_floor _ (mul_nonneg h0 (Nat.cast_nonneg _))
  refine ⟨hfl, ?_⟩
  unfold downsampleContigs
  rw [if_pos h1, hfl]
  apply hsample
  have hmul : p * (contigs.length : ℚ) ≤ (contigs.length : ℚ) :=
    mul_le_of_le_one_left (Nat.cast_nonneg _) (le_of_lt h1)
  have hle : ⌊p * (contigs.length : ℚ)⌋ ≤ (contigs.length : ℤ) := by
    calc ⌊p * (contigs.length : ℚ)⌋ ≤ ⌊((contigs.length : ℕ) : ℚ)⌋ := Int.floor_le_floor hmul
      _ = (contigs.length : ℤ) := Int.floor_natCast _
  omega

/-- C5 witness: instantiation at `p = 1/2` over three contigs with
`random.sample` realized by `List.take`. -/
theorem c5_witness :
    sampleCount (1 / 2) (List.replicate 3 (⟨"chr1", 0, 5⟩ : Contig)).length
      = ⌊(1 / 2 : ℚ) * (((List.replicate 3 (⟨"chr1", 0, 5⟩ : Contig)).length : ℕ) : ℚ)⌋
    ∧ (downsampleContigs (fun k l => l.take k) (1 / 2)
        (List.replicate 3 (⟨"chr1", 0, 5⟩ : Contig))).length
      = (⌊(1 / 2 : ℚ) * (((List.replicate 3 (⟨"chr1", 0, 5⟩ : Contig)).length : ℕ) : ℚ)⌋).toNat :=
  c5_amended (fun k l => l.take k)
    (fun k l h => by simp [List.length_take, Nat.min_eq_left h])
    (1 / 2) (by norm_num) (by norm_num) (List.replicate 3 ⟨"chr1", 0, 5⟩)

/-- C6 counterexample: with a down-sample fraction of 2 — outside `[0,1]`
— the down-sampling step succeeds silently (no error of any kind, let
alone a `ConfigError` before I/O), and with `seq_length = 0` the length
filter keeps every contig instead of failing. -/
theorem c6_counterexample :
    ¬ ((2 : ℚ) ≤ 1)
    ∧ downsampleCheck 2 5 = Except.ok 5
    ∧ filterContigsLen 0 [⟨"chr1", 0, 10⟩] = [⟨"chr1", 0, 10⟩] := by
  refine ⟨by norm_num, ?_, by decide⟩
  unfold downsampleCheck
  rw [if_neg (by norm_num)]

/-- C6 amended: the code validates neither `seq_length` nor the
down-sample fraction and has no `ConfigError`: a fraction `p ≥ 1`
silently disables down-sampling; a fraction `q ≤ -1` over a non-empty
contig list fails only inside `random.sample` with a `ValueError` (after
the contig I/O has already happened); and a non-positive `seq_length` is
never rejected — the length filter then keeps every well-formed contig. -/
theorem c6_amended (p : ℚ) (hp : 1 ≤ p) (n : ℕ) (q : ℚ) (hq : q ≤ -1) (m : ℕ)
    (hm : 1 ≤ m) (L : ℤ) (hL : L ≤ 0) (contigs : List Contig)
    (hwf : ∀ c ∈ contigs, c.start ≤ c.stop) :
    downsampleCheck p n = Except.ok n
    ∧ downsampleCheck q m
        = Except.error "ValueError: Sample larger than population or is negative"
    ∧ filterContigsLen L contigs = contigs := by
  refine ⟨?_, ?_, ?_⟩
  · unfold downsampleCheck
    rw [if_neg (not_lt.mpr hp)]
  · unfold downsampleCheck
    have hcount : sampleCount q m < 0 := by
      unfold sampleCount
      apply pyInt_neg_of_le_neg_one
      calc q * (m : ℚ) ≤ -1 * (m : ℚ) := by
            apply mul_le_mul_of_nonneg_right hq (Nat.cast_nonneg m)
        _ ≤ -1 := by
            have : (1 : ℚ) ≤ (m : ℚ) := by exact_mod_cast hm
            linarith
    rw [if_pos (by linarith), if_neg (by omega)]
  · unfold filterContigsLen
    rw [List.filter_eq_self]
    intro c hc
    have := hwf c hc
    simp only [decide_eq_true_eq]
    have hcast : ((c.start : ℤ)) ≤ (c.stop : ℤ) := by exact_mod_cast this
    omega

/-- C6 witness: instantiation at fraction 2 (no error), fraction −1 over
two contigs (`ValueError`), and `seq_length = 0` over one contig. -/
theorem c6_witness :
    downsampleCheck 2 5 = Except.ok 5
    ∧ downsampleCheck (-1) 2
        = Except.error "ValueError: Sample larger than population or is negative"
    ∧ filterContigsLen 0 [⟨"chr2", 3, 10⟩] = [⟨"chr2", 3, 10⟩] :=
  c6_amended 2 (by norm_num) 5 (-1) (by norm_num) 2 (by norm_num) 0 (by norm_num)
    [⟨"chr2", 3, 10⟩] (by intro c hc; simp at hc; subst hc; norm_num)

end Basenji
